import Mathlib

/-
Verification development for the core of
`src/src/lib/createStreamingSVGRenderer.js` (map-of-reddit).

Modelling conventions:
* JavaScript numbers are modelled as rationals (`ℚ`); every value the claims
  touch is produced by finite arithmetic on finite inputs.
* Packed RGBA colors are modelled as their 32-bit unsigned bit pattern
  (`Nat`); JavaScript's signed `Int32` view of a packed color has exactly the
  same bits, so byte-level statements transfer verbatim.
* A thrown JavaScript exception is modelled as `Option.none` (or as an
  explicit `Except.error` with a constructor named after the spec's error
  taxonomy).
* JavaScript `Map`s are modelled as association lists in insertion order
  (`Map.set` is only ever reached for a key that is absent, so it appends),
  and JavaScript `Set`s as duplicate-free lists in insertion order.
-/

namespace MapOfReddit

/-! ## Number.parseFloat

Model of `Number.parseFloat` as used by the renderer: skip leading
whitespace, optional sign, then the longest prefix of the form
`digits[.digits]` or `.digits`; anything else (including the empty parse)
is `NaN`, modelled as `none`.  Exponents and `Infinity` never occur in the
documents the renderer parses and are not modelled. -/

def isWs (c : Char) : Bool :=
  c == ' ' || c == '\t' || c == '\n' || c == '\r'

def digitVal (c : Char) : Nat := c.toNat - 48

def natOfDigits (ds : List Char) : Nat :=
  ds.foldl (fun a c => 10 * a + digitVal c) 0

def fracOfDigits (ds : List Char) : ℚ :=
  (natOfDigits ds : ℚ) / ((10 : ℚ) ^ ds.length)

def parseUnsignedFloat (cs : List Char) : Option ℚ :=
  let intPart := cs.takeWhile Char.isDigit
  let rest := cs.dropWhile Char.isDigit
  if intPart ≠ [] then
    match rest with
    | '.' :: rest2 =>
        some ((natOfDigits intPart : ℚ) + fracOfDigits (rest2.takeWhile Char.isDigit))
    | _ => some (natOfDigits intPart)
  else
    match cs with
    | '.' :: rest2 =>
        let fr := rest2.takeWhile Char.isDigit
        if fr = [] then none else some (fracOfDigits fr)
    | _ => none

def parseJSFloatChars (cs0 : List Char) : Option ℚ :=
  match cs0.dropWhile isWs with
  | '-' :: cs => (parseUnsignedFloat cs).map Neg.neg
  | '+' :: cs => parseUnsignedFloat cs
  | cs => parseUnsignedFloat cs

def parseJSFloat (s : String) : Option ℚ :=
  parseJSFloatChars s.toList

/-- `String.prototype.split` with a one-character separator: splits at every
occurrence, keeping empty pieces (JavaScript semantics). -/
def splitOnChar (sep : Char) : List Char → List (List Char)
  | [] => [[]]
  | c :: rest =>
    if c == sep then [] :: splitOnChar sep rest
    else
      match splitOnChar sep rest with
      | [] => [[c]]
      | h :: t => (c :: h) :: t

/-! ## Ingestion-time error taxonomy (spec section 7) -/

inductive IngestErr where
  | invalidViewBox
  | malformedTransform
  | unbalancedTransformStack
  | invalidNumericAttribute
  | duplicateNodeName
  | typeError
deriving DecidableEq

instance {ε α : Type} [DecidableEq ε] [DecidableEq α] : DecidableEq (Except ε α) := fun x y =>
  match x, y with
  | .ok a, .ok b =>
      if h : a = b then .isTrue (congrArg Except.ok h)
      else .isFalse (fun hc => h (Except.ok.inj hc))
  | .error a, .error b =>
      if h : a = b then .isTrue (congrArg Except.error h)
      else .isFalse (fun hc => h (Except.error.inj hc))
  | .ok _, .error _ => .isFalse Except.noConfusion
  | .error _, .ok _ => .isFalse Except.noConfusion

/-! ## ViewBox (source: `handleElementStart`, svg branch) -/

structure ViewBox where
  left : ℚ
  top : ℚ
  width : ℚ
  height : ℚ
deriving DecidableEq

/-- Source line 238: `element.attributes.get('viewBox') || '0 0 1024 1024'`;
a missing attribute (`undefined`) and the empty string are both falsy in
JavaScript, so both fall back to the default string. -/
def viewBoxRaw (attr : Option String) : String :=
  match attr with
  | none => "0 0 1024 1024"
  | some s => if s = "" then "0 0 1024 1024" else s

/-- Source lines 238-241: split on single spaces, `Number.parseFloat` each
token, keep only the finite results (`.filter(finiteNumber)`). -/
def viewBoxTokens (attr : Option String) : List ℚ :=
  (splitOnChar ' ' (viewBoxRaw attr).toList).filterMap parseJSFloatChars

/-- Source lines 238-250: throw unless exactly 4 finite tokens survive,
otherwise store them as left/top/width/height in order. -/
def parseViewBox (attr : Option String) : Except IngestErr ViewBox :=
  match viewBoxTokens attr with
  | [a, b, c, d] => .ok ⟨a, b, c, d⟩
  | _ => .error .invalidViewBox

/-- Source lines 328-330: vertical-axis flip against the stored view box. -/
def transformY (vb : ViewBox) (y : ℚ) : ℚ :=
  vb.height + vb.top - y

/-! ## Transform stack (source: `createTransformParser`, lines 443-496) -/

structure TransformRecord where
  a : ℚ
  b : ℚ
  c : ℚ
  d : ℚ
  e : ℚ
  f : ℚ
deriving DecidableEq

def matrixKey : List Char := ['m', 'a', 't', 'r', 'i', 'x', '(']

/-- Everything after the first occurrence of `matrix(`, or `none` when the
string has no such occurrence. -/
def afterFirstMatrix : List Char → Option (List Char)
  | [] => none
  | c :: rest =>
    if matrixKey.isPrefixOf (c :: rest) then some ((c :: rest).drop matrixKey.length)
    else afterFirstMatrix rest

/-- Model of the regex match `str.match(/matrix\((.+)\)$/i)`: the capture
group is everything strictly between the first occurrence of `matrix(` and a
closing parenthesis at the very end of the string, and must be nonempty.
(The `i` flag is not modelled; the renderer's documents use the lowercase
spelling.) -/
def matchMatrix (s : String) : Option (List Char) :=
  (afterFirstMatrix s.toList).bind fun inner =>
    match inner.getLast? with
    | some ')' => if 2 ≤ inner.length then some inner.dropLast else none
    | _ => none

/-- Source lines 466-477: split the captured group on commas, parse floats,
keep the finite ones, and demand exactly 6 coefficients. -/
def parseTransform (s : String) : Option TransformRecord :=
  (matchMatrix s).bind fun body =>
    match (splitOnChar ',' body).filterMap parseJSFloatChars with
    | [a, b, c, d, e, f] => some ⟨a, b, c, d, e, f⟩
    | _ => none

/-- Mutable state of `createTransformParser`: the dirty flag, the cached
translation offsets and the stack of parsed records. -/
structure TPState where
  isDirty : Bool
  tx : ℚ
  ty : ℚ
  transformStack : List TransformRecord
deriving DecidableEq

def initTP : TPState := ⟨false, 0, 0, []⟩

/-- Source lines 488-493: `tx` accumulates `record[4]` (the `e` coefficient)
over the stack. -/
def sumE (st : List TransformRecord) : ℚ :=
  st.foldl (fun acc r => acc + r.e) 0

/-- Source lines 488-493: `ty` accumulates `record[5]` (the `f` coefficient)
over the stack. -/
def sumF (st : List TransformRecord) : ℚ :=
  st.foldl (fun acc r => acc + r.f) 0

/-- Source lines 484-495: recompute the cached offsets only when dirty. -/
def updateTransform (p : TPState) : TPState :=
  if p.isDirty then
    { p with tx := sumE p.transformStack, ty := sumF p.transformStack, isDirty := false }
  else p

/-- Source lines 479-482: `transform(x, y)` refreshes the cache and returns
`[x + tx, y - ty, 0]`. -/
def transformResult (p : TPState) (x y : ℚ) : ℚ × ℚ × ℚ :=
  let q := updateTransform p
  (x + q.tx, y - q.ty, 0)

/-- The three operations a client can perform on the parser state. -/
inductive TOp where
  | push (s : String)
  | pop
  | resolve
deriving DecidableEq

/-- One client call: `pushTransform` parses (throwing on a malformed string)
and appends, marking the cache dirty; `popTransform` throws on an empty
stack and otherwise drops the last record, marking the cache dirty;
`resolve` is a `transform` call, which refreshes the cache. -/
def applyTOp (p : TPState) : TOp → Option TPState
  | .push s =>
      (parseTransform s).map fun r =>
        { p with isDirty := true, transformStack := p.transformStack ++ [r] }
  | .pop =>
      if p.transformStack = [] then none
      else some { p with isDirty := true, transformStack := p.transformStack.dropLast }
  | .resolve => some (updateTransform p)

/-- The parser state reached from creation after a list of client calls. -/
def runTOps (ops : List TOp) : Option TPState :=
  ops.foldlM applyTOp initTP

/-- Cache coherence: whenever the dirty flag is clear, the cached offsets
are the coefficient sums of the current stack. -/
def TPInv (p : TPState) : Prop :=
  p.isDirty = false → p.tx = sumE p.transformStack ∧ p.ty = sumF p.transformStack

lemma applyTOp_inv {p q : TPState} {op : TOp} (hp : TPInv p)
    (h : applyTOp p op = some q) : TPInv q := by
  cases op with
  | push s =>
      simp only [applyTOp, Option.map_eq_some'] at h
      obtain ⟨r, _, rfl⟩ := h
      intro hfalse
      simp at hfalse
  | pop =>
      simp only [applyTOp] at h
      split at h
      · exact absurd h (by simp)
      · obtain rfl : _ = q := by simpa using h
        intro hfalse
        simp at hfalse
  | resolve =>
      obtain rfl : updateTransform p = q := by simpa [applyTOp] using h
      unfold updateTransform
      split
      · intro _
        exact ⟨rfl, rfl⟩
      · exact hp

lemma foldlM_tops_inv : ∀ (ops : List TOp) (p q : TPState), TPInv p →
    List.foldlM applyTOp p ops = some q → TPInv q := by
  intro ops
  induction ops with
  | nil =>
      intro p q hp h
      obtain rfl : p = q := by simpa [List.foldlM] using h
      exact hp
  | cons op rest ih =>
      intro p q hp h
      simp only [List.foldlM_cons] at h
      cases hstep : applyTOp p op with
      | none => rw [hstep] at h; simp at h
      | some mid =>
          rw [hstep] at h
          exact ih mid q (applyTOp_inv hp hstep) (by simpa using h)

lemma runTOps_inv {ops : List TOp} {p : TPState} (h : runTOps ops = some p) :
    TPInv p := by
  refine foldlM_tops_inv ops initTP p ?_ h
  intro _
  exact ⟨rfl, rfl⟩

/-! ## Highlight-color constants

Modelled from the spec: `Colors.PRIMARY_HIGHLIGHT_COLOR` and
`Colors.SECONDARY_HIGHLIGHT_COLOR` live in `constants.js`, which is not part
of the provided source.  The spec only distinguishes a primary and a
secondary highlight color; the concrete values below are arbitrary and no
theorem depends on them. -/

def primaryHighlightColor : Nat := 0xbf2908ff

def secondaryHighlightColor : Nat := 0xe56aaaff

/-! ## The full node/link graph (external collaborator, `ngraph.graph`)

Per spec section 6 the renderer consumes a graph exposing
`forEachLinkedNode(name, visitor)` (non-oriented: visits every link incident
to the node, in link-insertion order, passing the far endpoint and the link),
`hasLink(a, b)` (directed lookup of a link `a → b`) and mutable construction.
Modelled as a list of directed links in insertion order. -/

structure Graph where
  links : List (String × String)
deriving DecidableEq

/-- `forEachLinkedNode(n, cb)` visit order, keeping the whole link: pairs of
the far endpoint and the link's `(fromId, toId)`.  A node absent from the
graph has no incident links, so the iteration is empty, exactly as in
`ngraph` (which silently skips iteration for an unknown node id). -/
def linkedPairs (g : Graph) (n : String) : List (String × String × String) :=
  (g.links.filter fun l => l.1 == n || l.2 == n).map
    fun l => (if l.1 == n then l.2 else l.1, l.1, l.2)

/-- Just the far endpoints, in visit order. -/
def linkedNodes (g : Graph) (n : String) : List String :=
  (linkedPairs g n).map (·.1)

/-- `graph.hasLink(a, b)`: a directed link from `a` to `b` exists. -/
def Graph.hasLinkB (g : Graph) (a b : String) : Bool :=
  g.links.any fun l => l.1 == a && l.2 == b

/-! ## Renderer state and node records -/

/-- NodeRecord (spec section 3): the UI object built per circle element. -/
structure UI where
  componentId : String
  position : ℚ × ℚ × ℚ
  color : Nat
  size : ℚ
  id : Nat
  name : String
deriving DecidableEq

/-- The focused-node reference handed to the highlight functions; they read
only its `name` and `componentId` fields. -/
structure UIRef where
  name : String
  componentId : String
deriving DecidableEq

/-- Association-list lookup, modelling `Map.get` (first match; the maps are
only ever extended at a key that is absent, so keys are unique). -/
def look {α : Type} : List (String × α) → String → Option α
  | [], _ => none
  | (k2, v) :: rest, k => if k2 = k then some v else look rest k

/-- `Set.prototype.add`: append when absent (insertion order preserved). -/
def setAdd (l : List String) (x : String) : List String :=
  if x ∈ l then l else l ++ [x]

/-- In-place update of one entry of an association list. -/
def updateEntry {α : Type} (m : List (String × α)) (k : String) (f : α → α) :
    List (String × α) :=
  m.map fun p => if p.1 = k then (p.1, f p.2) else p

/-- The renderer's mutable indices (spec section 3) together with the view
box, the transform-parser state and the loaded graph. -/
structure RState where
  viewBox : Option ViewBox
  tp : TPState
  nodeNameToUI : List (String × UI)
  nodesByComponent : List (String × List String)
  complimentaryColor : List (String × Nat)
  positions : List UI
  graph : Option Graph
deriving DecidableEq

/-! ## Highlight engine (source: `getHighlightedNodes` lines 80-96,
`getHighlightedLinks` lines 98-125) -/

/-- An entry of the highlighted-node sequence: the spread copy of the stored
record (`{...nodeNameToUI.get(name)}`, which is the empty object when the
record is missing) with its `color` field overwritten. -/
structure HLNode where
  base : Option UI
  color : Nat
deriving DecidableEq

/-- Source lines 88-93: the `forEachLinkedNode` callback pushes the colored
copy of the far endpoint and then evaluates `neighbors.has(other.id)` (a
conditional with no effect on the emitted sequence); when `neighbors` is
`undefined` that member access throws, modelled as `none`. -/
def hlLoop (neighbors : Option (List String)) (lk : String → Option UI) :
    List String → List HLNode → Option (List HLNode)
  | [], acc => some acc
  | other :: rest, acc =>
    match neighbors with
    | none => none
    | some _ => hlLoop neighbors lk rest (acc ++ [⟨lk other, secondaryHighlightColor⟩])

/-- Source lines 80-96. -/
def getHighlightedNodes (s : RState) (ui : UIRef) : Option (List HLNode) :=
  match s.graph with
  | none => some []
  | some g =>
    let neighbors := look s.nodesByComponent ui.componentId
    let base : HLNode := ⟨look s.nodeNameToUI ui.name, primaryHighlightColor⟩
    hlLoop neighbors (look s.nodeNameToUI) (linkedNodes g ui.name) [base]

/-- An entry of the highlighted-link sequence. -/
structure LinkUI where
  fromPos : ℚ × ℚ × ℚ
  toPos : ℚ × ℚ × ℚ
  color : Option Nat
  isFirstLevel : Bool
deriving DecidableEq

/-- Source lines 108-121, the inner `forEachLinkedNode(neighborId, ...)`
loop for one source node `n` of the cluster set, with the running counter
`idx` (reset to 0 per source node, compared with `idx > maxLinks` where
`maxLinks = 10`, and incremented after every push).  Reading `.position` of
a missing record throws, modelled as `none`. -/
def emitGo (uiName : String) (nb : List String) (lk : String → Option UI)
    (sc : Option Nat) (n : String) : List String → Nat → Option (List LinkUI)
  | [], _ => some []
  | other :: rest, idx =>
    if other ∈ nb then
      if 10 < idx ∧ (n == uiName || other == uiName) = false then
        emitGo uiName nb lk sc n rest idx
      else
        match lk n, lk other with
        | some nUI, some oUI =>
            (emitGo uiName nb lk sc n rest (idx + 1)).map
              fun L => ⟨nUI.position, oUI.position,
                        if (n == uiName || other == uiName) then some 0xffffffff else sc,
                        (n == uiName || other == uiName)⟩ :: L
        | _, _ => none
    else emitGo uiName nb lk sc n rest idx

/-- The links emitted while iterating source node `n` of the cluster. -/
def emitFrom (s : RState) (g : Graph) (ui : UIRef) (nb : List String)
    (n : String) : Option (List LinkUI) :=
  emitGo ui.name nb (look s.nodeNameToUI) (look s.complimentaryColor ui.componentId)
    n (linkedNodes g n) 0

/-- Source line 108: `neighbors.forEach(...)`, concatenating the per-source
emissions in cluster-set insertion order. -/
def linksOuter (s : RState) (g : Graph) (ui : UIRef) (nb : List String) :
    List String → Option (List LinkUI)
  | [] => some []
  | n :: ns =>
    match emitFrom s g ui nb n with
    | none => none
    | some Ln => (linksOuter s g ui nb ns).map fun L => Ln ++ L

/-- Source lines 98-125.  When no graph is loaded the result is empty; when
the cluster set for `ui.componentId` is missing, `neighbors.forEach` throws
a TypeError, modelled as `none`. -/
def getHighlightedLinks (s : RState) (ui : UIRef) : Option (List LinkUI) :=
  match s.graph with
  | none => some []
  | some g =>
    match look s.nodesByComponent ui.componentId with
    | none => none
    | some nb => linksOuter s g ui nb nb

/-! ## Subgraph extractor (source: `showRelated`, lines 127-173) -/

/-- Node payload inside the extracted subgraph: `{isRoot: true}` for the
root, `{isFirstChild}` for nodes tagged by the extraction loop. -/
inductive SubNodeData where
  | root
  | child (isFirstChild : Bool)
deriving DecidableEq

structure SubLink where
  fromId : String
  toId : String
  isRootLevel : Bool
deriving DecidableEq

/-- The output graph being built by `showRelated`: nodes carry an optional
payload (`none` models an `ngraph` node created implicitly by `addLink`,
whose `data` is `undefined`), links carry the `isRootLevel` tag. -/
structure Subgraph where
  nodes : List (String × Option SubNodeData)
  links : List SubLink
deriving DecidableEq

/-- `ngraph`'s `addNode`: replaces the payload of an existing node in place,
otherwise appends a new node. -/
def Subgraph.addNodeData (sg : Subgraph) (n : String) (d : Option SubNodeData) :
    Subgraph :=
  if (look sg.nodes n).isSome then
    { sg with nodes := sg.nodes.map fun p => if p.1 = n then (n, d) else p }
  else
    { sg with nodes := sg.nodes ++ [(n, d)] }

/-- `ngraph`'s `addLink` creates missing endpoint nodes without data. -/
def Subgraph.ensureNode (sg : Subgraph) (n : String) : Subgraph :=
  if (look sg.nodes n).isSome then sg else { sg with nodes := sg.nodes ++ [(n, none)] }

def Subgraph.hasLinkD (sg : Subgraph) (a b : String) : Bool :=
  sg.links.any fun l => l.fromId == a && l.toId == b

def Subgraph.addLink (sg : Subgraph) (a b : String) (rl : Bool) : Subgraph :=
  let sg2 := (sg.ensureNode a).ensureNode b
  { sg2 with links := sg2.links ++ [⟨a, b, rl⟩] }

/-- Source lines 163-167: `addNeighbors` inserts every far endpoint of the
given node into the accumulating set. -/
def addNeighbors (g : Graph) (node : String) (s : List String) : List String :=
  (linkedNodes g node).foldl setAdd s

/-- Source lines 132-137: the 1-hop set of the root, then one closure pass
over a snapshot of it (`Array.from(subgraphNodes)`). -/
def subgraphNodesOf (g : Graph) (root : String) : List String :=
  let s0 := addNeighbors g root []
  s0.foldl (fun acc n => addNeighbors g n acc) s0

/-- Source line 142, second disjunct: the code calls
`graph.hasLink(subgraph, node)`, passing the subgraph *object* where a node
id is expected.  No node of the full graph has the subgraph object as its
id, so the lookup never finds a node and the call always returns a falsy
value. -/
def hasLinkWithGraphObjectKey (_g : Graph) (_n : String) : Bool := false

/-- Source lines 127-153: the whole extraction (the visualizer hand-off on
lines 155-172 is outside the extracted data and not modelled). -/
def showRelated (g : Graph) (root : String) : Subgraph :=
  let sub0 : Subgraph := ⟨[(root, some .root)], []⟩
  let s := subgraphNodesOf g root
  s.foldl
    (fun sub n =>
      let sub2 :=
        match look sub.nodes n with
        | some (some _) => sub
        | _ =>
          let isFirstChild := g.hasLinkB n root || hasLinkWithGraphObjectKey g n
          sub.addNodeData n (some (.child isFirstChild))
      (linkedPairs g n).foldl
        (fun subAcc pr =>
          if pr.1 ∈ s then
            if subAcc.hasLinkD pr.2.1 pr.2.2 then subAcc
            else subAcc.addLink pr.2.1 pr.2.2 (pr.2.1 == root || pr.2.2 == root)
          else subAcc)
        sub2)
    sub0

/-! ## Element ingestion: `addNode` (source lines 275-320) -/

/-- A streaming `circle` element: the attributes `addNode` reads, plus the
`id` attribute of its structural parent.  A missing attribute is `none`
(JavaScript `undefined`). -/
structure CircleEl where
  cx : Option String
  cy : Option String
  r : Option String
  id : Option String
  parentId : Option String
deriving DecidableEq

/-- `getTextAttribute` (source lines 513-515): the attribute or `''`. -/
def getText (a : Option String) : String := a.getD ""

/-- `getNumericAttribute` (source lines 501-511) yields the parsed float
when finite; `none` models the thrown `InvalidNumericAttribute` error
(`Number.parseFloat(undefined)` is `NaN`, hence also an error). -/
def numAttr (a : Option String) : Option ℚ :=
  a.bind parseJSFloat

/-- The element's `id` with one leading underscore stripped
(source lines 279-280). -/
def stripId (el : CircleEl) : String :=
  let n := getText el.id
  match n.toList with
  | '_' :: rest => String.mk rest
  | _ => n

/-- The node record `addNode` constructs (source lines 292-300): the
cluster id is the parent's `id` attribute, the position is the transform
resolution of `(cx, transformY cy)`, and `sequenceId` is the count of
previously stored records. -/
def mkNodeUI (s : RState) (el : CircleEl) (x cy0 r : ℚ) (vb : ViewBox) : UI :=
  ⟨getText el.parentId,
   (x + (updateTransform s.tp).tx, transformY vb cy0 - (updateTransform s.tp).ty, 0),
   0xdcdcdcff, r * 2, s.positions.length, stripId el⟩

/-- The cluster-membership update of `addNode` (source lines 284-290):
create the cluster set when absent, then insert the node name. -/
def registerComponent (s : RState) (el : CircleEl) : List (String × List String) :=
  updateEntry
    (match look s.nodesByComponent (getText el.parentId) with
     | none => s.nodesByComponent ++ [(getText el.parentId, [])]
     | some _ => s.nodesByComponent)
    (getText el.parentId) fun l => setAdd l (stripId el)

/-- Source lines 275-320, the state-changing part of `addNode` (search
registration, progress reporting and render requests are external sinks).
Evaluation order follows the source: `cx`, then `cy` (whose `transformY`
dereferences the view box and throws a TypeError when none was stored),
then `r`, then the duplicate-name check, then the cluster registration and
the record construction.  An error leaves the state untouched. -/
def addNode (s : RState) (el : CircleEl) : Except IngestErr RState :=
  match numAttr el.cx with
  | none => .error .invalidNumericAttribute
  | some x =>
    match numAttr el.cy with
    | none => .error .invalidNumericAttribute
    | some cy0 =>
      match s.viewBox with
      | none => .error .typeError
      | some vb =>
        match numAttr el.r with
        | none => .error .invalidNumericAttribute
        | some r =>
          if (look s.nodeNameToUI (stripId el)).isSome then .error .duplicateNodeName
          else
            .ok { s with
                    nodeNameToUI := s.nodeNameToUI ++ [(stripId el, mkNodeUI s el x cy0 r vb)],
                    nodesByComponent := registerComponent s el,
                    positions := s.positions ++ [mkNodeUI s el x cy0 r vb],
                    tp := updateTransform s.tp }

/-- A sequence of circle elements ingested in document order; the first
error aborts the pass. -/
def ingest (s : RState) : List CircleEl → Except IngestErr RState
  | [] => .ok s
  | el :: rest =>
    match addNode s el with
    | .error e => .error e
    | .ok s2 => ingest s2 rest

/-- The renderer's state right after the root `svg` element stored a view
box and before any circle arrived. -/
def initRState (vb : ViewBox) : RState :=
  ⟨some vb, initTP, [], [], [], [], none⟩

/-! ## Cluster color deriver (source lines 341-401)

Packed colors are the 32-bit unsigned bit pattern of the JavaScript signed
integer; `Math.round` rounds half-way cases up. -/

def jsRound (x : ℚ) : ℤ := ⌊x + 1 / 2⌋

/-- Source lines 353-375, the standard RGB→HSL transform: channels scaled
to [0,1]; the `switch (max)` matches the `r` case first, then `g`, then
`b`. -/
def rgbToHsl (r0 g0 b0 : ℚ) : ℚ × ℚ × ℚ :=
  let r := r0 / 255
  let g := g0 / 255
  let b := b0 / 255
  let mx := max r (max g b)
  let mn := min r (min g b)
  let l := (mx + mn) / 2
  if mx = mn then (0, 0, l)
  else
    let d := mx - mn
    let s := if l > 1 / 2 then d / (2 - mx - mn) else d / (mx + mn)
    let h :=
      if mx = r then (g - b) / d + (if g < b then 6 else 0)
      else if mx = g then (b - r) / d + 2
      else (r - g) / d + 4
    (h / 6, s, l)

/-- Source lines 393-400. -/
def hue2rgb (p q t0 : ℚ) : ℚ :=
  let t1 := if t0 < 0 then t0 + 1 else t0
  let t := if t1 > 1 then t1 - 1 else t1
  if t < 1 / 6 then p + (q - p) * 6 * t
  else if t < 1 / 2 then q
  else if t < 2 / 3 then p + (q - p) * (2 / 3 - t) * 6
  else p

/-- Source lines 377-401, the standard HSL→RGB transform with rounding to
byte values. -/
def hslToRgb (h s l : ℚ) : ℤ × ℤ × ℤ :=
  if s = 0 then (jsRound (l * 255), jsRound (l * 255), jsRound (l * 255))
  else
    let q := if l < 1 / 2 then l * (1 + s) else l + s - l * s
    let p := 2 * l - q
    (jsRound (hue2rgb p q (h + 1 / 3) * 255),
     jsRound (hue2rgb p q h * 255),
     jsRound (hue2rgb p q (h - 1 / 3) * 255))

/-- `ToUint32` of a JavaScript integer: the 32-bit pattern. -/
def toUint32 (n : ℤ) : Nat := (n % 4294967296).toNat

/-- The bit pattern of `(r << 24) | (g << 16) | (b << 8) | alpha` as
JavaScript computes it: each operand is converted to its 32-bit pattern, and
the final pattern is truncated to 32 bits (JavaScript would additionally
reinterpret it as signed, which does not change the bits). -/
def pack32 (r g b : ℤ) (alpha : Nat) : Nat :=
  ((toUint32 r <<< 24) ||| (toUint32 g <<< 16) ||| (toUint32 b <<< 8) ||| alpha) % 4294967296

/-- Source lines 341-352: `getComplimentaryColor(color)` with the default
arguments `lightningFactor = 1.4` (overwritten to `0.8` when the color is
already light) and `alpha = 0xaa`. -/
def getComplimentaryColor (color : Nat) : Nat :=
  let r : ℚ := (((color >>> 24) &&& 0xff : Nat) : ℚ)
  let g : ℚ := (((color >>> 16) &&& 0xff : Nat) : ℚ)
  let b : ℚ := (((color >>> 8) &&& 0xff : Nat) : ℚ)
  let hsl := rgbToHsl r g b
  let l := hsl.2.2
  let lightningFactor : ℚ := if l > 1 / 2 then 0.8 else 1.4
  let rgb := hslToRgb hsl.1 hsl.2.1 (min 1 (l * lightningFactor))
  pack32 rgb.1 rgb.2.1 rgb.2.2 0xaa

/-- The complementary-color derivation exactly as the spec's section 4.4
words it: unpack the base color into `(r,g,b)`, convert to HSL with the
standard transform, pick the lightness factor `0.8` when `l > 0.5` and
`1.4` otherwise, recompute RGB from `(h, s, min(1, l * factor))`, and
repack as RGBA with a fixed alpha of `0xAA`. -/
def deriveComplementarySpec (baseColor : Nat) : Nat :=
  let r : ℚ := (((baseColor >>> 24) &&& 0xff : Nat) : ℚ)
  let g : ℚ := (((baseColor >>> 16) &&& 0xff : Nat) : ℚ)
  let b : ℚ := (((baseColor >>> 8) &&& 0xff : Nat) : ℚ)
  let hsl := rgbToHsl r g b
  let factor : ℚ := if hsl.2.2 > 1 / 2 then 0.8 else 1.4
  let rgb := hslToRgb hsl.1 hsl.2.1 (min 1 (hsl.2.2 * factor))
  pack32 rgb.1 rgb.2.1 rgb.2.2 0xaa

lemma pack32_mod_256 (r g b : ℤ) (alpha : Nat) (ha : alpha < 256) :
    pack32 r g b alpha % 256 = alpha := by
  unfold pack32
  have h32 : (256 : Nat) ∣ 4294967296 := ⟨16777216, by norm_num⟩
  rw [Nat.mod_mod_of_dvd _ h32]
  refine Nat.eq_of_testBit_eq fun j => ?_
  rw [show (256 : Nat) = 2 ^ 8 by norm_num, Nat.testBit_mod_two_pow]
  rcases lt_or_ge j 8 with hj | hj
  · have h24 : ¬ 24 ≤ j := by omega
    have h16 : ¬ 16 ≤ j := by omega
    have h8 : ¬ 8 ≤ j := by omega
    simp [Nat.testBit_lor, Nat.testBit_shiftLeft, h24, h16, h8, hj]
  · have h1 : alpha.testBit j = false :=
      Nat.testBit_lt_two_pow
        (lt_of_lt_of_le ha (by
          calc (256 : Nat) = 2 ^ 8 := by norm_num
          _ ≤ 2 ^ j := Nat.pow_le_pow_right (by norm_num) hj))
    have h2 : ¬ j < 8 := by omega
    simp [h2, h1]

/-! ## Theorems for the claims -/

/-- C8: with the view box set, the vertical flip satisfies
`transformY y = viewBox.height + viewBox.top - y` for every y, hence is an
involution; for a view box with top 0 and height 1000, `transformY 0 = 1000`
and `transformY 1000 = 0`. -/
theorem c8_transformY_involution :
    (∀ (vb : ViewBox) (y : ℚ), transformY vb y = vb.height + vb.top - y ∧
      transformY vb (transformY vb y) = y) ∧
    transformY ⟨0, 0, 1024, 1000⟩ 0 = 1000 ∧
    transformY ⟨0, 0, 1024, 1000⟩ 1000 = 0 := by
  refine ⟨fun vb y => ⟨rfl, ?_⟩, by norm_num [transformY], by norm_num [transformY]⟩
  unfold transformY
  ring

/-- C4: in every state reachable by pushes, pops and resolves, resolving
`(x, y)` returns exactly `(x + Σe, y - Σf, 0)` where `Σe` and `Σf` are the
sums of the fifth and sixth matrix coefficients of the stacked transforms
(JavaScript numbers modelled as rationals). -/
theorem c4_resolve_translation_sum (ops : List TOp) (p : TPState) (x y : ℚ)
    (h : runTOps ops = some p) :
    transformResult p x y = (x + sumE p.transformStack, y - sumF p.transformStack, 0) := by
  have hinv := runTOps_inv h
  unfold transformResult updateTransform
  cases hd : p.isDirty with
  | true => simp [hd]
  | false =>
      obtain ⟨h1, h2⟩ := hinv hd
      simp [hd, h1, h2]

/-- C4 witness: pushing `matrix(1,0,0,1,10,20)` then resolving `(0,0)`
yields `(10, -20, 0)`. -/
theorem c4_witness :
    runTOps [TOp.push "matrix(1,0,0,1,10,20)"] = some ⟨true, 0, 0, [⟨1, 0, 0, 1, 10, 20⟩]⟩ ∧
    transformResult ⟨true, 0, 0, [⟨1, 0, 0, 1, 10, 20⟩]⟩ 0 0 = (10, -20, 0) := by
  constructor
  · decide
  · have h := c4_resolve_translation_sum [TOp.push "matrix(1,0,0,1,10,20)"]
      ⟨true, 0, 0, [⟨1, 0, 0, 1, 10, 20⟩]⟩ 0 0 (by decide)
    rw [h]
    norm_num [sumE, sumF]

/-- C10: in every reachable state whose transform stack is empty (nothing
pushed, or every push matched by a pop), resolving `(x, y)` returns exactly
`(x, y, 0)`. -/
theorem c10_empty_stack_identity (ops : List TOp) (p : TPState) (x y : ℚ)
    (h : runTOps ops = some p) (hst : p.transformStack = []) :
    transformResult p x y = (x, y, 0) := by
  have hinv := runTOps_inv h
  unfold transformResult updateTransform
  cases hd : p.isDirty with
  | true => simp [hd, hst, sumE, sumF]
  | false =>
      obtain ⟨h1, h2⟩ := hinv hd
      simp [hd, h1, h2, hst, sumE, sumF]

/-- C10 witness: after a balanced push/pop pair the resolver is the identity
translation. -/
theorem c10_witness :
    runTOps [TOp.push "matrix(1,0,0,1,10,20)", TOp.pop] = some ⟨true, 0, 0, []⟩ ∧
    transformResult ⟨true, 0, 0, []⟩ 5 7 = (5, 7, 0) := by
  refine ⟨by decide, ?_⟩
  exact c10_empty_stack_identity [TOp.push "matrix(1,0,0,1,10,20)", TOp.pop]
    ⟨true, 0, 0, []⟩ 5 7 (by decide) rfl

/-- C5: the root element's `viewBox` string (defaulting to
`"0 0 1024 1024"` when absent) is split on spaces and parsed as finite
floats; parsing fails with `InvalidViewBox` exactly when the count of
finite tokens is not 4, and otherwise the stored view box takes the 4
tokens as left/top/width/height in order; in particular
`"0 0 1024 1024"` parses to `(0, 0, 1024, 1024)` and `"0 0 1024"` fails. -/
theorem c5_viewbox_parsing (attr : Option String) :
    ((viewBoxTokens attr).length ≠ 4 → parseViewBox attr = .error .invalidViewBox) ∧
    (∀ a b c d : ℚ, viewBoxTokens attr = [a, b, c, d] → parseViewBox attr = .ok ⟨a, b, c, d⟩) ∧
    parseViewBox (some "0 0 1024 1024") = .ok ⟨0, 0, 1024, 1024⟩ ∧
    parseViewBox (some "0 0 1024") = .error .invalidViewBox ∧
    parseViewBox none = .ok ⟨0, 0, 1024, 1024⟩ := by
  refine ⟨?_, ?_, by decide, by decide, by decide⟩
  · intro hlen
    unfold parseViewBox
    split
    · next a b c d heq => rw [heq] at hlen; simp at hlen
    · rfl
  · intro a b c d heq
    unfold parseViewBox
    rw [heq]

/-- C5 witness: a 3-token string is rejected with `InvalidViewBox`, and a
4-token string is stored in order. -/
theorem c5_witness :
    parseViewBox (some "0 0 1024") = .error .invalidViewBox ∧
    parseViewBox (some "1 2 3 4") = .ok ⟨1, 2, 3, 4⟩ :=
  ⟨(c5_viewbox_parsing (some "0 0 1024")).1 (by decide),
   (c5_viewbox_parsing (some "1 2 3 4")).2.1 1 2 3 4 (by decide)⟩

/-- C9: the complementary-color derivation is the pure function described by
the spec (unpack to RGB, convert to HSL, scale lightness by 0.8 when
`l > 0.5` and by 1.4 otherwise, clamp to 1, convert back, repack), and the
alpha byte of its result is always `0xAA`.  Determinism is inherent: the
function is a pure mapping of its argument. -/
theorem c9_complementary_color (c : Nat) :
    getComplimentaryColor c = deriveComplementarySpec c ∧
    getComplimentaryColor c % 256 = 0xaa := by
  refine ⟨rfl, ?_⟩
  unfold getComplimentaryColor
  exact pack32_mod_256 _ _ _ 0xaa (by norm_num)

lemma hlLoop_some (lk : String → Option UI) (nb : List String) :
    ∀ (others : List String) (acc : List HLNode),
      hlLoop (some nb) lk others acc =
        some (acc ++ others.map fun o => ⟨lk o, secondaryHighlightColor⟩) := by
  intro others
  induction others with
  | nil => intro acc; simp [hlLoop]
  | cons o rest ih => intro acc; simp [hlLoop, ih]

/-- C7: for a focused node present in the indices, with a loaded graph, the
highlighted-node sequence is the focused record (primary highlight color)
followed by one entry per node directly linked to it in the full graph
(secondary highlight color), in link-iteration order and with no filtering
by cluster membership; with no links only the focused record is returned. -/
theorem c7_highlighted_nodes (s : RState) (ui : UIRef) (g : Graph) (rec : UI)
    (nb : List String)
    (hg : s.graph = some g)
    (hrec : look s.nodeNameToUI ui.name = some rec)
    (hnb : look s.nodesByComponent ui.componentId = some nb) :
    getHighlightedNodes s ui =
      some (⟨some rec, primaryHighlightColor⟩ ::
        (linkedNodes g ui.name).map fun o => ⟨look s.nodeNameToUI o, secondaryHighlightColor⟩) ∧
    (linkedNodes g ui.name = [] →
      getHighlightedNodes s ui = some [⟨some rec, primaryHighlightColor⟩]) := by
  constructor
  · simp [getHighlightedNodes, hg, hnb, hrec, hlLoop_some]
  · intro hempty
    simp [getHighlightedNodes, hg, hnb, hrec, hempty, hlLoop]

/-- State for the C7 witness: two nodes `a`, `b` in cluster `c`, one link. -/
def hlVizUI (nm : String) : UI := ⟨"c", (1, 2, 0), 0xdcdcdcff, 4, 0, nm⟩

def hlVizState : RState :=
  ⟨none, initTP, [("a", hlVizUI "a"), ("b", hlVizUI "b")], [("c", ["a", "b"])],
   [], [], some ⟨[("a", "b")]⟩⟩

/-- C7 witness: focusing `a` yields `a` with the primary color followed by
its sole neighbor `b` with the secondary color. -/
theorem c7_witness :
    getHighlightedNodes hlVizState ⟨"a", "c"⟩ =
      some [⟨some (hlVizUI "a"), primaryHighlightColor⟩,
            ⟨some (hlVizUI "b"), secondaryHighlightColor⟩] := by
  have h := (c7_highlighted_nodes hlVizState ⟨"a", "c"⟩ ⟨[("a", "b")]⟩ (hlVizUI "a")
    ["a", "b"] rfl (by decide) (by decide)).1
  rw [h]
  decide

/-- C3 (amended): with a graph loaded, a focused reference whose name and
componentId are unknown to the indices (and whose name has no incident
graph links) makes `getHighlightedNodes` return a single stub record — the
spread of a missing record, carrying only the primary highlight color —
without error, while `getHighlightedLinks` throws a TypeError
(`neighbors.forEach` on `undefined`, modelled as `none`) instead of
returning an empty result. -/
theorem c3_unknown_reference_behavior (s : RState) (ui : UIRef) (g : Graph)
    (hg : s.graph = some g)
    (hname : look s.nodeNameToUI ui.name = none)
    (hcid : look s.nodesByComponent ui.componentId = none)
    (hlinks : linkedNodes g ui.name = []) :
    getHighlightedNodes s ui = some [⟨none, primaryHighlightColor⟩] ∧
    getHighlightedLinks s ui = none := by
  constructor
  · simp [getHighlightedNodes, hg, hname, hcid, hlinks, hlLoop]
  · simp [getHighlightedLinks, hg, hcid]

/-- State for the C3 counterexample and witness: an empty loaded graph and
empty indices. -/
def unknownRefState : RState := ⟨none, initTP, [], [], [], [], some ⟨[]⟩⟩

/-- C3 counterexample: with a graph loaded and the reference `⟨"x", "c"⟩`
unknown to the indices, `getHighlightedLinks` raises a TypeError (modelled
as `none`) rather than returning an empty result, and
`getHighlightedNodes` returns a non-empty singleton stub — both contradict
the claim that the two calls return an empty result and never raise. -/
theorem c3_counterexample :
    getHighlightedLinks unknownRefState ⟨"x", "c"⟩ = none ∧
    getHighlightedNodes unknownRefState ⟨"x", "c"⟩ ≠ some [] ∧
    getHighlightedNodes unknownRefState ⟨"x", "c"⟩ =
      some [⟨none, primaryHighlightColor⟩] := by
  refine ⟨by decide, by decide, by decide⟩

/-- C3 witness: the amended claim at the concrete unknown reference. -/
theorem c3_witness :
    getHighlightedNodes unknownRefState ⟨"x", "c"⟩ =
      some [⟨none, primaryHighlightColor⟩] ∧
    getHighlightedLinks unknownRefState ⟨"x", "c"⟩ = none :=
  c3_unknown_reference_behavior unknownRefState ⟨"x", "c"⟩ ⟨[]⟩ rfl rfl rfl rfl

/-- The counter `idx` is compared with `idx > 10` before a push and
incremented after every push, so at most `11 - idx` further non-first-level
links can be emitted from the current source node. -/
lemma emitGo_cap (u : String) (nb : List String) (lk : String → Option UI)
    (sc : Option Nat) (n : String) :
    ∀ (others : List String) (idx : Nat) (L : List LinkUI),
      emitGo u nb lk sc n others idx = some L →
      L.countP (fun l => !l.isFirstLevel) ≤ 11 - idx := by
  intro others
  induction others with
  | nil =>
      intro idx L h
      obtain rfl : ([] : List LinkUI) = L := by simpa [emitGo] using h
      simp
  | cons o rest ih =>
      intro idx L h
      simp only [emitGo] at h
      split at h
      · split at h
        · exact ih idx L h
        · next hcond =>
          split at h
          · next nUI oUI hn ho =>
            obtain ⟨L2, hrec, rfl⟩ := Option.map_eq_some'.mp h
            have hL2 := ih (idx + 1) L2 hrec
            rcases Bool.eq_false_or_eq_true (n == u || o == u) with hfl | hfl
            · simp only [List.countP_cons]
              simp [hfl]
              omega
            · have hidx : ¬ 10 < idx := fun hgt => hcond ⟨hgt, hfl⟩
              simp only [List.countP_cons]
              simp [hfl]
              omega
          · exact absurd h (by simp)
      · exact ih idx L h

/-- Every first-level link (one endpoint is the focused node) whose far
endpoint is in the cluster set is emitted, whatever the counter value. -/
lemma emitGo_first_level_mem (u : String) (nb : List String)
    (lk : String → Option UI) (sc : Option Nat) (n : String) :
    ∀ (others : List String) (idx : Nat) (L : List LinkUI),
      emitGo u nb lk sc n others idx = some L →
      ∀ o ∈ others, o ∈ nb → (n == u || o == u) = true →
      ∃ pn po, lk n = some pn ∧ lk o = some po ∧
        (⟨pn.position, po.position, some 0xffffffff, true⟩ : LinkUI) ∈ L := by
  intro others
  induction others with
  | nil => intro idx L _ o hmem; exact absurd hmem (by simp)
  | cons o2 rest ih =>
      intro idx L h o hmem honb hfl
      rcases List.mem_cons.mp hmem with rfl | hmem2
      · -- the element itself: the skip branch cannot fire for a first-level link
        simp only [emitGo, honb, if_true] at h
        rw [if_neg (fun hc => by simp [hfl] at hc)] at h
        split at h
        · next nUI oUI hn ho =>
          obtain ⟨L2, _, rfl⟩ := Option.map_eq_some'.mp h
          exact ⟨nUI, oUI, hn, ho, by simp [hfl]⟩
        · exact absurd h (by simp)
      · -- further down the list: whatever this step did, recurse
        simp only [emitGo] at h
        split at h
        · split at h
          · exact ih idx L h o hmem2 honb hfl
          · split at h
            · next nUI oUI hn ho =>
              obtain ⟨L2, hrec, rfl⟩ := Option.map_eq_some'.mp h
              obtain ⟨pn, po, h1, h2, h3⟩ := ih (idx + 1) L2 hrec o hmem2 honb hfl
              exact ⟨pn, po, h1, h2, List.mem_cons_of_mem _ h3⟩
            · exact absurd h (by simp)
        · exact ih idx L h o hmem2 honb hfl

/-- Success of the outer `neighbors.forEach` loop implies, for every source
node of the cluster set, a successful per-source emission whose links all
appear in the total output. -/
lemma linksOuter_mem (s : RState) (g : Graph) (ui : UIRef) (nb : List String) :
    ∀ (ns : List String) (L : List LinkUI),
      linksOuter s g ui nb ns = some L →
      ∀ n ∈ ns, ∃ Ln, emitFrom s g ui nb n = some Ln ∧ ∀ l ∈ Ln, l ∈ L := by
  intro ns
  induction ns with
  | nil => intro L _ n hmem; exact absurd hmem (by simp)
  | cons n2 rest ih =>
      intro L h n hmem
      simp only [linksOuter] at h
      split at h
      · exact absurd h (by simp)
      · next Ln2 hemit =>
        obtain ⟨L2, hrest, rfl⟩ := Option.map_eq_some'.mp h
        rcases List.mem_cons.mp hmem with rfl | hmem2
        · exact ⟨Ln2, hemit, fun l hl => List.mem_append_left _ hl⟩
        · obtain ⟨Ln, h1, h2⟩ := ih L2 hrest n hmem2
          exact ⟨Ln, h1, fun l hl => List.mem_append_right _ (h2 l hl)⟩

/-- C1 (amended): for every focused node and every source node `n` of its
cluster set, a successful `getHighlightedLinks` call emits at most 11
non-first-level links originating from `n` (the source compares the shared
per-source counter with `idx > 10` before pushing and increments it after
every push, first-level pushes included), while every first-level link from
`n` whose far endpoint lies in the cluster set is emitted regardless of the
counter; all links emitted from `n` appear in the total output. -/
theorem c1_amended_link_cap (s : RState) (ui : UIRef) (g : Graph)
    (nb : List String) (L : List LinkUI) (n : String)
    (hg : s.graph = some g)
    (hnb : look s.nodesByComponent ui.componentId = some nb)
    (hL : getHighlightedLinks s ui = some L) (hn : n ∈ nb) :
    ∃ Ln, emitFrom s g ui nb n = some Ln ∧
      Ln.countP (fun l => !l.isFirstLevel) ≤ 11 ∧
      (∀ o ∈ linkedNodes g n, o ∈ nb → (n = ui.name ∨ o = ui.name) →
        ∃ pn po, look s.nodeNameToUI n = some pn ∧ look s.nodeNameToUI o = some po ∧
          (⟨pn.position, po.position, some 0xffffffff, true⟩ : LinkUI) ∈ Ln) ∧
      (∀ l ∈ Ln, l ∈ L) := by
  have hL2 : linksOuter s g ui nb nb = some L := by
    simpa [getHighlightedLinks, hg, hnb] using hL
  obtain ⟨Ln, hLn, hsub⟩ := linksOuter_mem s g ui nb nb L hL2 n hn
  have hLn2 : emitGo ui.name nb (look s.nodeNameToUI)
      (look s.complimentaryColor ui.componentId) n (linkedNodes g n) 0 = some Ln := hLn
  refine ⟨Ln, hLn, ?_, ?_, hsub⟩
  · simpa using emitGo_cap ui.name nb (look s.nodeNameToUI)
      (look s.complimentaryColor ui.componentId) n (linkedNodes g n) 0 Ln hLn2
  · intro o ho honb hor
    have hfl : (n == ui.name || o == ui.name) = true := by
      rcases hor with h | h <;> simp [h]
    exact emitGo_first_level_mem ui.name nb (look s.nodeNameToUI)
      (look s.complimentaryColor ui.componentId) n (linkedNodes g n) 0 Ln hLn2 o ho honb hfl

/-- C1 witness: a two-node cluster where both links touch the focused node
`a`; the amended claim applied at source node `a`. -/
theorem c1_witness :
    ∃ Ln, emitFrom hlVizState ⟨[("a", "b")]⟩ ⟨"a", "c"⟩ ["a", "b"] "a" = some Ln ∧
      Ln.countP (fun l => !l.isFirstLevel) ≤ 11 ∧
      (∀ o ∈ linkedNodes (⟨[("a", "b")]⟩ : Graph) "a", o ∈ ["a", "b"] →
        ("a" = (⟨"a", "c"⟩ : UIRef).name ∨ o = (⟨"a", "c"⟩ : UIRef).name) →
        ∃ pn po, look hlVizState.nodeNameToUI "a" = some pn ∧
          look hlVizState.nodeNameToUI o = some po ∧
          (⟨pn.position, po.position, some 0xffffffff, true⟩ : LinkUI) ∈ Ln) ∧
      (∀ l ∈ Ln, l ∈ [(⟨(1, 2, 0), (1, 2, 0), some 0xffffffff, true⟩ : LinkUI),
                      ⟨(1, 2, 0), (1, 2, 0), some 0xffffffff, true⟩]) :=
  c1_amended_link_cap hlVizState ⟨"a", "c"⟩ ⟨[("a", "b")]⟩ ["a", "b"]
    [⟨(1, 2, 0), (1, 2, 0), some 0xffffffff, true⟩,
     ⟨(1, 2, 0), (1, 2, 0), some 0xffffffff, true⟩] "a"
    rfl (by decide) (by decide) (by decide)

/-- The C1 counterexample state: cluster `c` holds nodes `0`..`12`, the
graph links node `0` to each of `1`..`12`, and the focused reference
`⟨"z", "c"⟩` touches none of them, so every link is non-first-level. -/
def capClusterNames : List String :=
  ["0", "1", "2", "3", "4", "5", "6", "7", "8", "9", "10", "11", "12"]

def capGraph : Graph := ⟨(capClusterNames.drop 1).map fun k => ("0", k)⟩

def capUIOf (nm : String) : UI := ⟨"c", (0, 0, 0), 0xdcdcdcff, 2, 0, nm⟩

def capState : RState :=
  ⟨none, initTP, capClusterNames.map fun k => (k, capUIOf k),
   [("c", capClusterNames)], [], [], some capGraph⟩

/-- C1 counterexample: source node `0` has 12 non-first-level in-cluster
links; `getHighlightedLinks` succeeds and emits 11 of them — more than the
10 the claim allows. -/
theorem c1_counterexample :
    (emitFrom capState capGraph ⟨"z", "c"⟩ capClusterNames "0").map
        (List.countP fun l => !l.isFirstLevel) = some 11 ∧
    (getHighlightedLinks capState ⟨"z", "c"⟩).isSome = true := by
  refine ⟨by decide, by decide⟩

lemma look_isSome_iff {α : Type} :
    ∀ (m : List (String × α)) (k : String),
      (look m k).isSome = true ↔ k ∈ m.map Prod.fst := by
  intro m
  induction m with
  | nil => intro k; simp [look]
  | cons p rest ih =>
      intro k
      by_cases hk : p.1 = k
      · simp [look, hk]
      · simp [look, hk, ih k, Ne.symm hk]

/-- The two stores `addNode` appends to stay aligned: the map keys are
exactly the record names, in order. -/
def StateKeysOk (s : RState) : Prop :=
  s.nodeNameToUI.map Prod.fst = s.positions.map UI.name

lemma addNode_preserves (s s2 : RState) (el : CircleEl)
    (hk : StateKeysOk s) (hnd : (s.positions.map UI.name).Nodup)
    (h : addNode s el = .ok s2) :
    StateKeysOk s2 ∧ (s2.positions.map UI.name).Nodup := by
  unfold addNode at h
  split at h
  · exact absurd h (by simp)
  · split at h
    · exact absurd h (by simp)
    · split at h
      · exact absurd h (by simp)
      · split at h
        · exact absurd h (by simp)
        · split at h
          · exact absurd h (by simp)
          · next hdup =>
            obtain rfl : _ = s2 := Except.ok.inj h
            have hnotmem : stripId el ∉ s.positions.map UI.name := by
              rw [← hk]
              intro hmem
              exact hdup ((look_isSome_iff s.nodeNameToUI (stripId el)).mpr hmem)
            constructor
            · have hk2 : List.map Prod.fst s.nodeNameToUI = List.map UI.name s.positions := hk
              simp [StateKeysOk, mkNodeUI, hk2]
            · simp [List.nodup_append, hnd, hnotmem, mkNodeUI]

lemma ingest_preserves : ∀ (els : List CircleEl) (s s2 : RState),
    StateKeysOk s → (s.positions.map UI.name).Nodup →
    ingest s els = .ok s2 →
    StateKeysOk s2 ∧ (s2.positions.map UI.name).Nodup := by
  intro els
  induction els with
  | nil =>
      intro s s2 hk hnd h
      obtain rfl : s = s2 := by simpa [ingest] using h
      exact ⟨hk, hnd⟩
  | cons el rest ih =>
      intro s s2 hk hnd h
      simp only [ingest] at h
      cases hstep : addNode s el with
      | error e => rw [hstep] at h; exact absurd h (by simp)
      | ok mid =>
          rw [hstep] at h
          obtain ⟨hk2, hnd2⟩ := addNode_preserves s mid el hk hnd hstep
          exact ih mid s2 hk2 hnd2 h

/-- C6: any two node records ingested from one document have distinct names
(the circle's `id` with one leading underscore stripped), and ingesting a
circle whose stripped id is already registered fails with
`DuplicateNodeName` — the error is raised before any store is touched, so
no new record is stored (the `Except` model returns no successor state). -/
theorem c6_unique_names :
    (∀ (vb : ViewBox) (els : List CircleEl) (s2 : RState),
        ingest (initRState vb) els = .ok s2 →
        (s2.positions.map UI.name).Nodup) ∧
    (∀ (s : RState) (el : CircleEl) (x y r : ℚ) (vb : ViewBox),
        numAttr el.cx = some x → numAttr el.cy = some y → numAttr el.r = some r →
        s.viewBox = some vb →
        stripId el ∈ s.nodeNameToUI.map Prod.fst →
        addNode s el = .error .duplicateNodeName) := by
  constructor
  · intro vb els s2 h
    exact (ingest_preserves els (initRState vb) s2 rfl (by simp [initRState]) h).2
  · intro s el x y r vb hx hy hr hvb hmem
    have hud := (look_isSome_iff s.nodeNameToUI (stripId el)).mpr hmem
    simp only [addNode, hx, hy, hvb, hr, hud, if_true]

/-- Concrete data for the C6 witness. -/
def ingVB : ViewBox := ⟨0, 0, 1024, 1024⟩

def ingEl1 : CircleEl := ⟨some "5", some "10", some "2", some "_x", some "c"⟩

def ingEl2 : CircleEl := ⟨some "6", some "11", some "3", some "x", some "d"⟩

def ingUI1 : UI := ⟨"c", (5, 1014, 0), 0xdcdcdcff, 4, 0, "x"⟩

def ingS1 : RState :=
  ⟨some ingVB, initTP, [("x", ingUI1)], [("c", ["x"])], [], [ingUI1], none⟩

/-- C6 witness: ingesting `_x` then a second circle with id `x` (same
stripped name) — the first ingestion yields duplicate-free names and the
second is rejected with `DuplicateNodeName`. -/
theorem c6_witness :
    (ingS1.positions.map UI.name).Nodup ∧
    addNode ingS1 ingEl2 = .error .duplicateNodeName := by
  constructor
  · refine (c6_unique_names).1 ingVB [ingEl1] ingS1 ?_
    have h5 : numAttr ingEl1.cx = some 5 := by decide
    have h10 : numAttr ingEl1.cy = some 10 := by decide
    have h2 : numAttr ingEl1.r = some 2 := by decide
    have hid : stripId ingEl1 = "x" := by decide
    have hpid : getText ingEl1.parentId = "c" := by decide
    simp only [ingest, addNode, h5, h10, h2, initRState, look, mkNodeUI, registerComponent,
      hid, hpid, updateEntry, setAdd, transformY, updateTransform, initTP, ingVB]
    norm_num [ingS1, ingUI1, ingVB, initTP]
  · exact (c6_unique_names).2 ingS1 ingEl2 6 11 3 ingVB
      (by decide) (by decide) (by decide) rfl (by decide)

/-- The spec's section-8 example graph: root `r` with direct neighbors `a`
and `b`, and `a`'s further neighbor `c`, with the links directed away from
the root (`r→a`, `r→b`, `a→c`). -/
def rootedExampleGraph : Graph := ⟨[("r", "a"), ("r", "b"), ("a", "c")]⟩

/-- C2 (evaluation of the code at the failing input): the claim demands
`isFirstChild = true` for every node with a direct edge to or from the root,
but the source computes
`graph.hasLink(node, subreddit) || graph.hasLink(subgraph, node)` — the
second argument of the second call is the subgraph *object*, not the root
name (an evident slip for `subreddit`), so only the `node → root` direction
is ever detected.  On the spec's own example with links directed `r→a`,
`r→b`, `a→c`, nodes `a` and `b` are tagged `isFirstChild = false` although
`r→a` and `r→b` are edges of the full graph. -/
theorem c2_code_evaluation :
    look (showRelated rootedExampleGraph "r").nodes "a" = some (some (.child false)) ∧
    look (showRelated rootedExampleGraph "r").nodes "b" = some (some (.child false)) ∧
    look (showRelated rootedExampleGraph "r").nodes "c" = some (some (.child false)) ∧
    look (showRelated rootedExampleGraph "r").nodes "r" = some (some .root) ∧
    rootedExampleGraph.hasLinkB "r" "a" = true ∧
    rootedExampleGraph.hasLinkB "r" "b" = true := by
  refine ⟨by decide, by decide, by decide, by decide, by decide, by decide⟩

end MapOfReddit
